import Mathlib

/-!
Verification of the HAPF studio analysis core: the brace/string-aware block
scanner (`findBlockEnd`), the declaration scans and dependency-graph builder
(`parseHapf` in `src/components/HapfDiagram.tsx`), the per-line semantic
checker (`analyzeCode` in `src/src/components/HapfEditor.tsx`), and the
rank-relaxation layout pass (`src/unnamed/part_008`).

Source text is modelled as `List Char`; JavaScript string indices are
modelled as `Int` (with the JS sentinel -1) where the source can produce -1,
and as `Nat` where the source guarantees non-negativity.  JSX labels and CSS
style objects carried by nodes are presentation data never consulted by the
algorithms; they are abstracted into a `kind` tag recording which push site
created the node.
-/

namespace Hapf

/-- JS `\w` character class: ASCII letters, digits, underscore. -/
def isWordChar (c : Char) : Bool :=
  (('a' ≤ c && c ≤ 'z') || ('A' ≤ c && c ≤ 'Z') || ('0' ≤ c && c ≤ '9') || c = '_')

/-- JS `\s` character class restricted to ASCII whitespace (the sources only
ever meet ASCII input). -/
def isJsSpace (c : Char) : Bool :=
  (c = ' ' || c = '\t' || c = '\n' || c = '\r' || c = '\x0b' || c = '\x0c')

/-- First character class of the token regex `[a-zA-Z_][\w.]*`. -/
def isTokenStart (c : Char) : Bool :=
  (('a' ≤ c && c ≤ 'z') || ('A' ≤ c && c ≤ 'Z') || c = '_')

/-- Continuation class `[\w.]` used by the token and module-name regexes. -/
def isWordDot (c : Char) : Bool :=
  isWordChar c || c = '.'

/-- Does list `p` occur at the front of `l`? -/
def startsWithChars : List Char → List Char → Bool
  | [], _ => true
  | _ :: _, [] => false
  | p :: ps, c :: cs => p = c && startsWithChars ps cs

/-- Number of occurrences of `c` in `l` (models `(line.match(/c/g) || []).length`). -/
def countChar (l : List Char) (c : Char) : Nat :=
  l.countP (fun x => x = c)

/-- JS `String.prototype.indexOf(pattern, fromIndex)`: the least index
`i ≥ max fromIndex 0` at which `pat` occurs in `s`, or -1.  A negative
`fromIndex` is clamped to 0, exactly as in JS. -/
def strIndexOf (s pat : List Char) (fromIdx : Int) : Int :=
  match (List.range (s.length + 1)).find?
      (fun i => decide (fromIdx.toNat ≤ i) && startsWithChars pat (s.drop i)) with
  | some i => (i : Int)
  | none => -1

/-- JS `String.prototype.lastIndexOf(c)` for a single character: greatest
index holding `c`, or -1. -/
def strLastIndexOf (s : List Char) (c : Char) : Int :=
  match (List.range s.length).filter (fun i => s.get? i = some c) with
  | [] => -1
  | is => ((is.getLast?).getD 0 : Nat)

/-- JS `String.prototype.substring(a, b)` where both ends are clamped to
`[0, length]` and swapped when `a > b`. -/
def jsSubstring (s : List Char) (a b : Int) : List Char :=
  let a' := min a.toNat s.length
  let b' := min b.toNat s.length
  ((s.take (max a' b')).drop (min a' b'))

/-- `trim()`: strip JS whitespace from both ends. -/
def jsTrim (l : List Char) : List Char :=
  ((l.dropWhile isJsSpace).reverse.dropWhile isJsSpace).reverse

/-!
## Block Scanner (`findBlockEnd`, HapfDiagram.tsx lines 127-146)

The JS loop runs `i` from `startIndex`; `text[i-1]` is read straight from the
full text (it is `undefined` when `i = 0`).  The pipeline scan can call this
with `startIndex = -1`; the JS iteration at `i = -1` reads `undefined` and
does nothing, so it is equivalent to starting at index 0, which is exactly
what `Int.toNat` yields.
-/

/-- One character of the `findBlockEnd` loop is processed per step; `fuel`
only bounds the recursion and is always ample at the call site. -/
def fbeAux (text : List Char) : Nat → Nat → Int → Bool → Int
  | 0, _, _, _ => -1
  | fuel + 1, i, openBraces, inString =>
    match text.get? i with
    | none => -1
    | some c =>
      let prev : Option Char := if i = 0 then none else text.get? (i - 1)
      let inString' := if c = '"' && prev ≠ some '\\' then !inString else inString
      if inString' then fbeAux text fuel (i + 1) openBraces inString'
      else
        let openBraces' := if c = '\x7b' then openBraces + 1 else openBraces
        if c = '\x7d' then
          if openBraces' - 1 = 0 then (i : Int)
          else fbeAux text fuel (i + 1) (openBraces' - 1) inString'
        else fbeAux text fuel (i + 1) openBraces' inString'

/-- `findBlockEnd(text, startIndex)`: index of the brace closing the block
opened at `startIndex`, or -1. -/
def findBlockEnd (text : List Char) (startIndex : Int) : Int :=
  fbeAux text (text.length + 1) startIndex.toNat 0 false

/-- The toggle condition actually implemented: the character is `"` and the
immediately preceding character of the full text is not a backslash
(no check whether that backslash is itself escaped). -/
def quoteToggles (text : List Char) (i : Nat) : Bool :=
  text.get? i = some '"' &&
    !(decide (1 ≤ i) && text.get? (i - 1) = some '\\')

/-- Number of consecutive backslashes immediately before index `i`. -/
def backslashRun (text : List Char) (i : Nat) : Nat :=
  ((text.take i).reverse.takeWhile (fun c => c = '\\')).length

/-- The toggle condition the claim describes: a `"` is effective unless the
immediately preceding backslash is itself unescaped, i.e. unless an odd
number of backslashes immediately precedes the quote. -/
def quoteTogglesEsc (text : List Char) (i : Nat) : Bool :=
  text.get? i = some '"' && decide (backslashRun text i % 2 = 0)

/-- String-state before processing index `i`, as a quote-toggle parity count
over `[s, i)`, parameterised by the toggle rule. -/
def inStringBefore (tog : List Char → Nat → Bool) (text : List Char) (s i : Nat) : Bool :=
  decide (((List.range i).filter (fun j => decide (s ≤ j) && tog text j)).length % 2 = 1)

/-- Signed brace contribution of index `j` (0 while inside a string). -/
def braceDelta (tog : List Char → Nat → Bool) (text : List Char) (s j : Nat) : Int :=
  if inStringBefore tog text s j then 0
  else if text.get? j = some '\x7b' then 1
  else if text.get? j = some '\x7d' then -1
  else 0

/-- Sum of the brace contributions of indices `[s, i)`. -/
def braceAcc (tog : List Char → Nat → Bool) (text : List Char) (s i : Nat) : Int :=
  (((List.range i).filter (fun j => decide (s ≤ j))).map (braceDelta tog text s)).sum

/-- Running brace counter after processing indices `[s, i]`. -/
def braceCount (tog : List Char → Nat → Bool) (text : List Char) (s i : Nat) : Int :=
  braceAcc tog text s (i + 1)

/-- Index `i` closes the block opened at `s`: a close brace, seen outside a
string, that returns the running counter to zero. -/
def fbeHit (tog : List Char → Nat → Bool) (text : List Char) (s i : Nat) : Bool :=
  text.get? i = some '\x7d' && !inStringBefore tog text s i &&
    decide (braceCount tog text s i = 0)

/-- Least `j ≥ i` with `fbeHit`, if any (`fuel` only bounds recursion). -/
def firstHitFrom (tog : List Char → Nat → Bool) (text : List Char) (s : Nat) :
    Nat → Nat → Option Nat
  | 0, _ => none
  | fuel + 1, i =>
    if i < text.length then
      if fbeHit tog text s i then some i else firstHitFrom tog text s fuel (i + 1)
    else none

/-- Counting-based characterisation of the block scanner: the least index at
which a close brace, seen outside a string, returns the running counter to
zero.  Parameterised by the quote-toggle rule so it can express both the
implemented rule and the rule the claim asserts. -/
def fbeCountSpec (tog : List Char → Nat → Bool) (text : List Char) (startIndex : Int) : Int :=
  let s := startIndex.toNat
  match firstHitFrom tog text s (text.length + 1) s with
  | some i => (i : Int)
  | none => -1

/-!
## Global regex scanning

A JS `while ((m = re.exec(s)) !== null)` loop with a `/g` regex finds the
leftmost match at or after `lastIndex` and continues from the match end.
Every regex in the sources matches at least one character, so the end
position strictly advances; `fuel` only bounds the recursion.  The regexes
used here never benefit from backtracking (each greedy piece is followed by
a character outside its class), so a matcher that takes the maximal run for
each class is exact.
-/

/-- Leftmost match of `m` at a position in `[pos, len)`: `m p` yields the
captured value plus the position just past the match. -/
def findMatchFrom {α : Type} (len : Nat) (m : Nat → Option (α × Nat)) (pos : Nat) :
    Option (α × Nat) :=
  (((List.range len).filter (fun p => decide (pos ≤ p))).filterMap m).head?

def scanAllAux {α : Type} (len : Nat) (m : Nat → Option (α × Nat)) :
    Nat → Nat → List α
  | 0, _ => []
  | fuel + 1, pos =>
    match findMatchFrom len m pos with
    | none => []
    | some (a, e) => a :: scanAllAux len m fuel e

/-- All matches of `m` over a string of length `len`, in document order. -/
def scanAll {α : Type} (len : Nat) (m : Nat → Option (α × Nat)) : List α :=
  scanAllAux len m (len + 1) 0

/-- Literal piece of a regex: `lit` must occur at `i`; yields the position
past it. -/
def litAt (s : List Char) (i : Nat) (lit : List Char) : Option Nat :=
  if startsWithChars lit (s.drop i) then some (i + lit.length) else none

/-- Maximal run of characters of class `cls` starting at `i`. -/
def takeClassFrom (s : List Char) (i : Nat) (cls : Char → Bool) : List Char :=
  (s.drop i).takeWhile cls

/-- `\s+` (at least one whitespace character). -/
def spacesPlus (s : List Char) (i : Nat) : Option Nat :=
  let k := (takeClassFrom s i isJsSpace).length
  if k = 0 then none else some (i + k)

/-- `\s*`. -/
def spacesStar (s : List Char) (i : Nat) : Nat :=
  i + (takeClassFrom s i isJsSpace).length

/-- Greedy nonempty character-class piece, e.g. `(\w+)`. -/
def classPlus (s : List Char) (i : Nat) (cls : Char → Bool) :
    Option (List Char × Nat) :=
  let w := takeClassFrom s i cls
  if w.isEmpty then none else some (w, i + w.length)

/-- Single required character. -/
def charAt (s : List Char) (i : Nat) (c : Char) : Option Nat :=
  if s.get? i = some c then some (i + 1) else none

/-- `word.split('.')[0]`. -/
def rootSegment (w : List Char) : List Char :=
  w.takeWhile (fun c => c ≠ '.')

def optIsWordChar (oc : Option Char) : Bool :=
  (oc.map isWordChar).getD false

/-- `new RegExp("\\b" ++ v ++ "\\b").test(s)` for an identifier `v` made of
word characters. -/
def containsWholeWord (s v : List Char) : Bool :=
  (List.range (s.length + 1)).any (fun p =>
    startsWithChars v (s.drop p) &&
    !(decide (1 ≤ p) && optIsWordChar (s.get? (p - 1))) &&
    !(optIsWordChar (s.get? (p + v.length))))

/-!
## Dependency Graph Builder (`parseHapf`, HapfDiagram.tsx lines 118-425)

Nodes carry a JSX label and a CSS style in the source; both are derived
solely from the push site and the already-recorded name, and are never read
back by the algorithm, so they are abstracted into a `kind` tag (inferred
arrow endpoints get `inputNodeStyle` on the source side and
`moduleNodeStyle` on the target side; both are `.inferred` here).
`nodeMap` and `variableMap` are JS `Map`s: insertion-ordered, `set`
overwriting in place; they are modelled as association lists.
-/

inductive NodeKind
  | module
  | runtime
  | input
  | inferred
deriving DecidableEq, Repr

structure GNode where
  id : String
  kind : NodeKind
deriving DecidableEq, Repr

structure GEdge where
  id : String
  source : String
  target : String
deriving DecidableEq, Repr

structure GraphState where
  nodes : List GNode := []
  edges : List GEdge := []
  nodeMap : List (String × String) := []
  variableMap : List (String × String) := []
deriving DecidableEq, Repr

def mapGet (m : List (String × String)) (k : String) : Option String :=
  (m.find? (fun kv => kv.1 == k)).map (fun kv => kv.2)

def mapSet (m : List (String × String)) (k v : String) : List (String × String) :=
  if m.any (fun kv => kv.1 == k) then
    m.map (fun kv => if kv.1 == k then (k, v) else kv)
  else m ++ [(k, v)]

/-- One iteration of a cursor-driven `while (cursor < code.length)` scan:
either the loop `break`s or continues with an updated state and cursor. -/
inductive ScanStep (σ : Type)
  | stop (st : σ)
  | next (st : σ) (cursor : Nat)
deriving DecidableEq

def runScan {σ : Type} (len : Nat) (step : σ → Nat → ScanStep σ) :
    Nat → σ → Nat → σ
  | 0, st, _ => st
  | fuel + 1, st, cursor =>
    if cursor < len then
      match step st cursor with
      | .stop st' => st'
      | .next st' c' => runScan len step fuel st' c'
    else st

/-- First match index of `/runtime\s*:/` (the match `.index`, not its end). -/
def runtimeColonIdx (s : List Char) : Option Nat :=
  ((List.range s.length).filterMap (fun p => do
    let j ← litAt s p "runtime".data
    let _ ← charAt s (spacesStar s j) ':'
    pure p)).head?

/-- Runtime sub-block handling inside a module body (lines 205-270): on a
`/runtime\s*:/` match, locate the `\x7b` after it, resolve the block, and push
a Runtime node and a Module→Runtime edge, both unconditionally.  The
key-value lines rendered into the runtime label are presentation only. -/
def addRuntimeParts (blockContent : List Char) (moduleName moduleId : String)
    (st : GraphState) : GraphState :=
  match runtimeColonIdx blockContent with
  | none => st
  | some runtimeIdx =>
    let rtBlockStart := strIndexOf blockContent ['\x7b'] (runtimeIdx : Int)
    if rtBlockStart = -1 then st
    else if findBlockEnd blockContent rtBlockStart = -1 then st
    else
      let rtId := "rt-" ++ moduleName
      { st with
        nodes := st.nodes ++ [⟨rtId, .runtime⟩],
        edges := st.edges ++ [⟨"e-" ++ moduleId ++ "-" ++ rtId, moduleId, rtId⟩] }

/-- One iteration of the module scan (lines 151-273). -/
def moduleScanStep (code : List Char) (st : GraphState) (cursor : Nat) :
    ScanStep GraphState :=
  let moduleIdx := strIndexOf code "module".data (cursor : Int)
  if moduleIdx = -1 then .stop st
  else if 1 ≤ moduleIdx && optIsWordChar (code.get? (moduleIdx.toNat - 1)) then
    .next st (moduleIdx.toNat + 6)
  else
    let quoteStart := strIndexOf code ['"'] moduleIdx
    let quoteEnd := strIndexOf code ['"'] (quoteStart + 1)
    if quoteStart = -1 || quoteEnd = -1 then .next st (moduleIdx.toNat + 6)
    else
      let moduleName := String.mk (jsSubstring code (quoteStart + 1) quoteEnd)
      let moduleId := "mod-" ++ moduleName
      let blockStart := strIndexOf code ['\x7b'] quoteEnd
      if blockStart = -1 then .next st (quoteEnd.toNat + 1)
      else
        let blockEnd := findBlockEnd code blockStart
        if blockEnd = -1 then .next st (blockStart.toNat + 1)
        else
          let blockContent := jsSubstring code (blockStart + 1) blockEnd
          let st1 : GraphState :=
            { st with
              nodes := st.nodes ++ [⟨moduleId, .module⟩],
              nodeMap := mapSet st.nodeMap moduleName moduleId }
          .next (addRuntimeParts blockContent moduleName moduleId st1) (blockEnd.toNat + 1)

/-- Matcher for `/(?:let\s+(\w+)\s*=\s*)?run\s+([\w\.]+)\s*\(/g`: the greedy
optional group is tried first, exactly as the regex engine does. -/
def runStmtAt (s : List Char) (i : Nat) :
    Option (((Option String × String) × Nat) × Nat) :=
  (do
    let j ← litAt s i "let".data
    let j ← spacesPlus s j
    let (v, j) ← classPlus s j isWordChar
    let j ← charAt s (spacesStar s j) '='
    let j ← litAt s (spacesStar s j) "run".data
    let j ← spacesPlus s j
    let (n, j) ← classPlus s j isWordDot
    let j ← charAt s (spacesStar s j) '('
    pure (((some (String.mk v), String.mk n), j), j)) <|>
  (do
    let j ← litAt s i "run".data
    let j ← spacesPlus s j
    let (n, j) ← classPlus s j isWordDot
    let j ← charAt s (spacesStar s j) '('
    pure ((((none : Option String), String.mk n), j), j))

/-- Matcher for `/input\.(\w+)/g`. -/
def inputUseAt (s : List Char) (i : Nat) : Option (String × Nat) := do
  let j ← litAt s i "input.".data
  let (n, j) ← classPlus s j isWordChar
  pure (String.mk n, j)

/-- Matcher for the arrow form `([\w\.]+)\s*(?:→|->)\s*([\w\.]+)` (the first
file variant stores the arrow glyph as the mojibake bytes "â†’"; both spell
the same alternative and neither occurs in ASCII documents). -/
def arrowAt (s : List Char) (i : Nat) : Option ((String × String) × Nat) := do
  let (a, j) ← classPlus s i isWordDot
  let j ← (litAt s (spacesStar s j) "->".data) <|> (litAt s (spacesStar s j) "→".data)
  let (b, j) ← classPlus s (spacesStar s j) isWordDot
  pure ((String.mk a, String.mk b), j)

/-- Input-argument handling (lines 312-340): materialise the Input node once
and the Input→Module edge once. -/
def processInput (moduleId : String) (st : GraphState) (inputName : String) :
    GraphState :=
  let sourceId := "input-" ++ inputName
  let st1 :=
    if st.nodes.any (fun n => n.id == sourceId) then st
    else { st with nodes := st.nodes ++ [⟨sourceId, .input⟩] }
  let edgeId := "e-" ++ sourceId ++ "-" ++ moduleId
  if st1.edges.any (fun e => e.id == edgeId) then st1
  else { st1 with edges := st1.edges ++ [⟨edgeId, sourceId, moduleId⟩] }

/-- Bound-variable argument handling (lines 342-362): for every variable of
`variableMap` (in insertion order) appearing as a whole word in the argument
text, add an edge from its producing node, deduplicated by edge id. -/
def processVarArgs (argsSection : List Char) (moduleId : String)
    (st : GraphState) : GraphState :=
  st.variableMap.foldl
    (fun acc kv =>
      if containsWholeWord argsSection kv.1.data then
        let edgeId := "e-" ++ kv.2 ++ "-" ++ moduleId
        if acc.edges.any (fun e => e.id == edgeId) then acc
        else { acc with edges := acc.edges ++ [⟨edgeId, kv.2, moduleId⟩] }
      else acc)
    st

/-- Handling of one functional-syntax match (lines 296-364).  Everything —
variable binding, Input-node creation, and edges — is inside the
`if (moduleId)` guard. -/
def processRunStmt (content : List Char) (st : GraphState)
    (m : (Option String × String) × Nat) : GraphState :=
  let ((outputVar, moduleName), matchEnd) := m
  match mapGet st.nodeMap moduleName with
  | none => st
  | some moduleId =>
    let st1 :=
      match outputVar with
      | some v => { st with variableMap := mapSet st.variableMap v moduleId }
      | none => st
    let argsSection := (content.drop matchEnd).takeWhile (fun c => c ≠ ')')
    let st2 := (scanAll argsSection.length (inputUseAt argsSection)).foldl
      (processInput moduleId) st1
    processVarArgs argsSection moduleId st2

/-- Handling of one arrow-syntax match (lines 369-414).  Both endpoint ids
are read from `nodeMap` before either endpoint is inferred. -/
def processArrow (st : GraphState) (m : String × String) : GraphState :=
  let (sourceName, targetName) := m
  let sId := mapGet st.nodeMap sourceName
  let tId := mapGet st.nodeMap targetName
  let step1 : GraphState × String :=
    match sId with
    | some i => (st, i)
    | none =>
      let sid := "inferred-" ++ sourceName
      if st.nodes.any (fun n => n.id == sid) then (st, sid)
      else
        ({ st with
            nodes := st.nodes ++ [⟨sid, .inferred⟩],
            nodeMap := mapSet st.nodeMap sourceName sid }, sid)
  let st1 := step1.1
  let sourceId := step1.2
  let step2 : GraphState × String :=
    match tId with
    | some i => (st1, i)
    | none =>
      let tid := "inferred-" ++ targetName
      if !(st1.nodes.any (fun n => n.id == tid)) && !(mapGet st1.nodeMap targetName).isSome then
        ({ st1 with
            nodes := st1.nodes ++ [⟨tid, .inferred⟩],
            nodeMap := mapSet st1.nodeMap targetName tid }, tid)
      else if (mapGet st1.nodeMap targetName).isSome then
        (st1, (mapGet st1.nodeMap targetName).getD tid)
      else (st1, tid)
  let st2 := step2.1
  let targetId := step2.2
  let edgeId := "e-" ++ sourceId ++ "-" ++ targetId
  if st2.edges.any (fun e => e.id == edgeId) then st2
  else { st2 with edges := st2.edges ++ [⟨edgeId, sourceId, targetId⟩] }

/-- One iteration of the pipeline scan (lines 277-417).  Note the absence of
the `-1` guards on `quoteStart`/`quoteEnd`/`blockStart` that the module scan
has; only `blockEnd === -1` is checked, and the failure path rewinds the
cursor to `quoteEnd + 1`. -/
def pipelineScanStep (code : List Char) (st : GraphState) (cursor : Nat) :
    ScanStep GraphState :=
  let pipelineIdx := strIndexOf code "pipeline".data (cursor : Int)
  if pipelineIdx = -1 then .stop st
  else if 1 ≤ pipelineIdx && optIsWordChar (code.get? (pipelineIdx.toNat - 1)) then
    .next st (pipelineIdx.toNat + 8)
  else
    let quoteStart := strIndexOf code ['"'] pipelineIdx
    let quoteEnd := strIndexOf code ['"'] (quoteStart + 1)
    let blockStart := strIndexOf code ['\x7b'] quoteEnd
    let blockEnd := findBlockEnd code blockStart
    if blockEnd = -1 then .next st (quoteEnd + 1).toNat
    else
      let content := jsSubstring code (blockStart + 1) blockEnd
      let st1 := (scanAll content.length (runStmtAt content)).foldl
        (processRunStmt content) st
      let st2 := (scanAll content.length (arrowAt content)).foldl processArrow st1
      .next st2 (blockEnd.toNat + 1)

/-- `parseHapf` restricted to its graph output: the module/runtime scan
followed by the pipeline scan.  (The dagre layout applied afterwards moves
node positions only and is external rendering concern.) -/
def parseGraph (code : List Char) : GraphState :=
  let st1 := runScan code.length (moduleScanStep code) (code.length + 1) {} 0
  runScan code.length (pipelineScanStep code) (code.length + 1) st1 0

/-!
## Semantic Checker (`analyzeCode`, HapfEditor.tsx lines 561-700)
-/

structure HapfDiagnostic where
  startLineNumber : Nat
  startColumn : Nat
  endLineNumber : Nat
  endColumn : Nat
  message : String
  severity : Nat
deriving DecidableEq, Repr

def undefinedModuleMessage (name : String) : String :=
  "Undefined module '" ++ name ++ "'. Ensure it is defined with 'module \"" ++
    name ++ "\"'."

def undefinedVariableMessage (v : String) : String :=
  "Undefined variable '" ++ v ++ "'."

/-- The five implicitly available system modules (lines 569-573). -/
def builtinModules : List String :=
  ["io.write_file", "io.write_output", "io.read_logs", "io.read_fs", "io.write_fs"]

/-- Matcher for the declaration regex `/module\s+"([^"]+)"/g`. -/
def moduleDeclAt (s : List Char) (i : Nat) : Option (String × Nat) := do
  let j ← litAt s i "module".data
  let j ← spacesPlus s j
  let j ← charAt s j '"'
  let (n, j) ← classPlus s j (fun c => c ≠ '"')
  let j ← charAt s j '"'
  pure (String.mk n, j)

/-- All quoted names of `module "<name>"` occurrences, whole document. -/
def moduleDeclNames (code : List Char) : List String :=
  scanAll code.length (moduleDeclAt code)

/-- The Symbol Table: built-ins plus every declared module name. -/
def symbolTable (code : List Char) : List String :=
  builtinModules ++ moduleDeclNames code

/-- Checker state carried across lines (lines 583-586). -/
structure AState where
  inPipeline : Bool
  scope : List String
  braceDepth : Int
  pipelineStartDepth : Int
deriving DecidableEq, Repr

def initAState : AState := ⟨false, [], 0, 0⟩

/-- A line is skipped when its trim is empty or starts with `#` (line 591). -/
def skipLine (line : List Char) : Bool :=
  let trimmed := jsTrim line
  trimmed.isEmpty || trimmed.head? = some '#'

/-- JS `Set.add`: membership-preserving insert (the scope set is only ever
queried with `has`, so insertion position is immaterial; appending keeps the
model deterministic). -/
def scopeAdd (scope : List String) (v : String) : List String :=
  if scope.contains v then scope else scope ++ [v]

/-- First match of `/let\s+([a-zA-Z_]\w*)\s*=/` on a line: the bound name.
There is no word-boundary assertion before `let` in the source regex. -/
def letBoundName (line : List Char) : Option String :=
  ((List.range line.length).filterMap (fun p => do
    let j ← litAt line p "let".data
    let j ← spacesPlus line j
    let c ← line.get? j
    if isTokenStart c then
      let w := c :: takeClassFrom line (j + 1) isWordChar
      let _ ← charAt line (spacesStar line (j + w.length)) '='
      pure (String.mk w)
    else none)).head?

/-- First match of `/\brun\s+([a-zA-Z0-9_\.]+)\s*\(/` on a line: the module
reference.  The boundary holds when the `r` is at position 0 or preceded by
a non-word character. -/
def lineRunName (line : List Char) : Option String :=
  ((List.range line.length).filterMap (fun p =>
    if 1 ≤ p && optIsWordChar (line.get? (p - 1)) then none
    else do
      let j ← litAt line p "run".data
      let j ← spacesPlus line j
      let (n, j) ← classPlus line j isWordDot
      let _ ← charAt line (spacesStar line j) '('
      pure (String.mk n))).head?

/-- All matches of the token regex `/([a-zA-Z_][\w\.]*)/g` with their match
indices, in order. -/
def argTokensAux (s : List Char) : Nat → Nat → List (List Char × Nat)
  | 0, _ => []
  | fuel + 1, i =>
    match s.get? i with
    | none => []
    | some c =>
      if isTokenStart c then
        let w := c :: takeClassFrom s (i + 1) isWordDot
        (w, i) :: argTokensAux s fuel (i + w.length)
      else argTokensAux s fuel (i + 1)

def argTokens (s : List Char) : List (List Char × Nat) :=
  argTokensAux s (s.length + 1) 0

/-- `!isNaN(parseFloat(root))`: the prefix of `root` parses as a number.
`parseFloat` skips leading whitespace (tokens never carry any), accepts an
optional sign, then either digits, a dot followed by a digit, or the literal
`Infinity`. -/
def jsParseFloatNum (s : List Char) : Bool :=
  let t := match s with
    | c :: r => if c = '+' || c = '-' then r else s
    | [] => s
  match t with
  | [] => false
  | c :: rest =>
    c.isDigit || (c = '.' && ((rest.head?.map Char.isDigit).getD false)) ||
      startsWithChars "Infinity".data t

/-- Per-token argument check (lines 659-693): the exclusion tests in source
order (object key, literal keyword, number, scope membership, quote parity),
then the Undefined-Variable diagnostic. -/
def tokenDiag (line : List Char) (scope : List String) (ln openParen : Nat)
    (argsStr : List Char) (wi : List Char × Nat) : Option HapfDiagnostic :=
  let word := wi.1
  let idx := wi.2
  if argsStr.get? (idx + word.length) = some ':' then none
  else
    let root := String.mk (rootSegment word)
    if ["true", "false", "null", "input"].contains root then none
    else if jsParseFloatNum (rootSegment word) then none
    else if scope.contains root then none
    else
      let fullLineIdx := openParen + 1 + idx
      if countChar (line.take fullLineIdx) '"' % 2 = 0 then
        some ⟨ln, fullLineIdx + 1, ln, fullLineIdx + 1 + word.length,
          undefinedVariableMessage root, 8⟩
      else none

def argDiags (line : List Char) (scope : List String) (ln openParen : Nat)
    (argsStr : List Char) : List HapfDiagnostic :=
  (argTokens argsStr).filterMap (tokenDiag line scope ln openParen argsStr)

/-- `nameStartCol` of the `run` check: `line.indexOf(moduleName) + 1`, which
may land on an earlier occurrence of the same text than the match itself. -/
def runNameCol (line : List Char) (name : String) : Nat :=
  (strIndexOf line name.data 0).toNat + 1

/-- `line.indexOf('(', nameStartCol)`. -/
def runOpenParen (line : List Char) (name : String) : Int :=
  strIndexOf line ['('] (runNameCol line name : Int)

/-- The argument substring between the parentheses found on the line. -/
def runArgsStr (line : List Char) (name : String) : List Char :=
  jsSubstring line (runOpenParen line name + 1) (strLastIndexOf line ')')

/-- The `run` validation block (lines 630-695): module-existence diagnostic
followed by the argument scope check. -/
def runCheckDiags (table : List String) (scope : List String) (ln : Nat)
    (line : List Char) : List HapfDiagnostic :=
  match lineRunName line with
  | none => []
  | some name =>
    let nameStartCol := runNameCol line name
    let modDiag : List HapfDiagnostic :=
      if table.contains name then []
      else [⟨ln, nameStartCol, ln, nameStartCol + name.length,
        undefinedModuleMessage name, 8⟩]
    let varDiags :=
      if runOpenParen line name ≠ -1 && strLastIndexOf line ')' ≠ -1 then
        argDiags line scope ln (runOpenParen line name).toNat
          (runArgsStr line name)
      else []
    modDiag ++ varDiags

/-- State after the `pipeline`-start detection for a non-skipped line
(lines 599-604). -/
def pipeStart (st : AState) (line : List Char) : AState :=
  if startsWithChars "pipeline".data (jsTrim line) then
    ⟨true, ["input"], st.braceDepth, st.braceDepth⟩
  else st

/-- The pipeline-exit test of line 611, evaluated on the updated depth. -/
def exitCond (st : AState) (line : List Char) : Bool :=
  let stA := pipeStart st line
  let closeB := countChar line '\x7d'
  let newDepth := stA.braceDepth + (countChar line '\x7b' : Int) - (closeB : Int)
  decide (newDepth ≤ stA.pipelineStartDepth) && decide (0 < closeB) &&
    decide (stA.pipelineStartDepth < stA.braceDepth)

/-- Scope visible to the `run` check of a line: the state scope after the
`pipeline` reset plus the line's own `let` binding (processed first). -/
def lineScope (st : AState) (line : List Char) : List String :=
  match letBoundName line with
  | some v => scopeAdd (pipeStart st line).scope v
  | none => (pipeStart st line).scope

/-- One line of the checker's second pass (lines 588-697). -/
def analyzeLine (table : List String) (st : AState) (ln : Nat)
    (line : List Char) : AState × List HapfDiagnostic :=
  if skipLine line then (st, [])
  else
    let stA := pipeStart st line
    let newDepth := stA.braceDepth + (countChar line '\x7b' : Int) -
      (countChar line '\x7d' : Int)
    let stB : AState := { stA with braceDepth := newDepth }
    if stB.inPipeline then
      if exitCond st line then ({ stB with inPipeline := false }, [])
      else
        let stC : AState := { stB with scope := lineScope st line }
        (stC, runCheckDiags table stC.scope ln line)
    else (stB, [])

def analyzeLinesAux (table : List String) : AState → Nat → List (List Char) →
    List HapfDiagnostic
  | _, _, [] => []
  | st, ln, l :: ls =>
    let r := analyzeLine table st ln l
    r.2 ++ analyzeLinesAux table r.1 (ln + 1) ls

/-- `analyzeCode`: symbol-table pass over the whole document, then the
line-by-line scope-tracked pass. -/
def analyzeCode (code : List Char) : List HapfDiagnostic :=
  analyzeLinesAux (symbolTable code) initAState 1 (code.splitOn '\n')

/-!
## Layout Engine rank relaxation (`src/unnamed/part_008`, lines 255-265)

The JS map is seeded with 0 for every node and read with `|| 0`, so a total
function with default 0 models it exactly (seeding is then the identity and
the node list plays no role in the relaxation itself). -/

def updateRank (r : String → Nat) (k : String) (v : Nat) : String → Nat :=
  fun x => if x = k then v else r x

/-- One edge of a relaxation pass: `if (sRank + 1 > tRank) set(target, sRank+1)`. -/
def relaxEdge (r : String → Nat) (e : String × String) : String → Nat :=
  if r e.1 + 1 > r e.2 then updateRank r e.2 (r e.1 + 1) else r

/-- One full pass over the edge list, in order. -/
def relaxPass (edges : List (String × String)) (r : String → Nat) : String → Nat :=
  edges.foldl relaxEdge r

/-- `for (let i = 0; i < 5; i++)`: exactly five passes from the all-zero map. -/
def relaxRanks (edges : List (String × String)) : String → Nat :=
  relaxPass edges (relaxPass edges (relaxPass edges (relaxPass edges
    (relaxPass edges (fun _ => 0)))))

/-- A directed dependency chain of `n` edges from `a` to `b` through the
edge list (vertices may repeat, so a cyclic graph has chains of every
length). -/
inductive Chain (edges : List (String × String)) : Nat → String → String → Prop
  | single : ∀ {a b : String}, (a, b) ∈ edges → Chain edges 1 a b
  | cons : ∀ {n : Nat} {a b c : String},
      Chain edges n a b → (b, c) ∈ edges → Chain edges (n + 1) a c

/-!
## Concrete documents used by the claim theorems
-/

/-- Spec scenario 2: an undefined module called with an `input.x` argument. -/
def hapfDoc1 : String := "pipeline \"p\" \x7b run unknown.mod(input.x) \x7d"

/-- Spec scenario 5: a one-line three-stage arrow chain, nothing declared. -/
def hapfDoc3 : String := "pipeline \"p\" \x7b ingest -> analyze -> generate \x7d"

/-- Two pipelines: a `let` binding in the first, the bound name used as an
argument in the second. -/
def hapfDoc4 : String :=
  "module \"m\" \x7b\x7d\nmodule \"n\" \x7b\x7d\npipeline \"p1\" \x7b let v = run m(input.a) \x7d\npipeline \"p2\" \x7b run n(v) \x7d"

/-- The same module name declared twice. -/
def hapfDoc8 : String := "module \"a\" \x7b\x7d module \"a\" \x7b\x7d"

/-- One module, one pipeline calling it twice with the same input. -/
def hapfDoc8b : String :=
  "module \"m\" \x7b\x7d pipeline \"p\" \x7b run m(input.x) run m(input.x) \x7d"

/-- A block whose string contains an escaped backslash directly before the
closing quote: the characters are `\x7b`, `"`, `\`, `\`, `"`, space, `\x7d`. -/
def hapfDoc7 : String := "\x7b\"\\\\\" \x7d"

/-- Document whose module declaration appears after the pipeline that calls
it. -/
def c5WitnessCode : String :=
  "pipeline \"p\" \x7b\n  run m()\n\x7d\nmodule \"m\" \x7b\x7d"

/-- A checker state mid-pipeline (scope holds only `input`, depth 1). -/
def midPipelineState : AState := ⟨true, ["input"], 1, 0⟩

def c5WitnessLine : String := "  run m()"

def c6WitnessLine : String := "  run m(bogus)"

def c6WitnessCode : String := "module \"m\" \x7b\x7d"

/-- Single-edge graph used to instantiate the relaxation theorem. -/
def c9Edges : List (String × String) := [("a", "b")]

/-- The malformed document of the termination claim: a `pipeline` keyword
never followed by a quoted name or any brace. -/
def hapfDoc2 : String := "pipeline"

/-- A comment line containing close braces. -/
def c10Line : String := "# \x7d\x7d\x7d braces inside a comment"

def emptyGraphState : GraphState := ⟨[], [], [], []⟩

/-- Every nonzero rank is witnessed by a chain of that length ending at the
node. -/
def RankWitnessed (edges : List (String × String)) (r : String → Nat) : Prop :=
  ∀ v, r v = 0 ∨ ∃ a, Chain edges (r v) a v

/-- Lower bound after `k` passes: every chain of length at most `k` ending
at a node bounds the node's rank from below. -/
def ChainLB (edges : List (String × String)) (k : Nat) (r : String → Nat) : Prop :=
  ∀ n a v, Chain edges n a v → n ≤ k → n ≤ r v


/-!
# Theorems
-/

/-- C1 counterexample: on `pipeline "p" &#123; run unknown.mod(input.x) &#125;`
the Graph Builder creates no nodes at all — in particular no Input node
keyed `x` — because Input-node creation sits inside the
`if (moduleId)` guard and `unknown.mod` never resolves.  This refutes the
claim's assertion that an Input node for `x` is still created. -/
theorem c1_counterexample : (parseGraph hapfDoc1.data).nodes = [] := by decide

/-- C1 amended: the checker emits exactly one Undefined-Module diagnostic
referencing `unknown.mod`, and the Graph Builder creates no Module node, no
Input node and no edge: the whole functional-call path, including Input-node
materialisation, is conditional on a resolved Module node. -/
theorem c1_one_diagnostic_no_graph :
    analyzeCode hapfDoc1.data =
      [⟨1, 20, 1, 31, undefinedModuleMessage "unknown.mod", 8⟩] ∧
    (parseGraph hapfDoc1.data).nodes = [] ∧
    (parseGraph hapfDoc1.data).edges = [] := by decide

/-- C2: on the eight-character document `pipeline` the pipeline-scan
iteration fails to advance: `quoteStart = quoteEnd = -1`, `blockStart = -1`,
`findBlockEnd` returns -1, and the failure path sets
`cursor = quoteEnd + 1 = 0`, the cursor it started from — so the
`while (cursor < code.length)` loop never terminates, contradicting the
guaranteed forward progress the claim states.  (The module scan guards
`quoteStart === -1 || quoteEnd === -1`; the pipeline scan omits exactly
those guards.) -/
theorem c2_pipeline_scan_no_progress :
    pipelineScanStep hapfDoc2.data emptyGraphState 0 =
      .next emptyGraphState 0 := by decide

/-- C3 counterexample: the arrow chain `ingest -> analyze -> generate`
yields two nodes and one edge, not three nodes and two edges: the global
regex consumes `analyze` as the first match's target, so no match remains
for `analyze -> generate`. -/
theorem c3_counterexample :
    (parseGraph hapfDoc3.data).nodes.length = 2 ∧
    (parseGraph hapfDoc3.data).edges.length = 1 := by decide

/-- C3 amended: on the one-line chain the Graph Builder produces exactly the
two inferred nodes `ingest` and `analyze` and the single edge
`ingest->analyze`; the third name never matches because the pair regex
consumes the middle name. -/
theorem c3_two_inferred_nodes_one_edge :
    (parseGraph hapfDoc3.data).nodes =
      [⟨"inferred-ingest", .inferred⟩, ⟨"inferred-analyze", .inferred⟩] ∧
    (parseGraph hapfDoc3.data).edges =
      [⟨"e-inferred-ingest-inferred-analyze", "inferred-ingest",
        "inferred-analyze"⟩] := by decide

/-- C4 counterexample: `variableMap` is created once per run and never
reseeded per pipeline, so the variable `v` bound by `let` in pipeline `p1`
produces the edge `mod-m → mod-n` when `v` appears in a call argument in
pipeline `p2` — refuting the claim that no such edge is produced. -/
theorem c4_counterexample :
    (parseGraph hapfDoc4.data).edges.any
      (fun e => e.id == "e-mod-m-mod-n") = true := by decide

/-- C4 amended: the Variable Binding map is seeded empty once per analysis
run and shared by every pipeline of the document; a `let` binding from an
earlier pipeline remains visible in later pipelines and produces
cross-pipeline edges.  On the two-pipeline document the final edge set is
exactly the in-pipeline edge `input-a → mod-m` plus the cross-pipeline edge
`mod-m → mod-n`, and the binding `v ↦ mod-m` survives to the end of the
run. -/
theorem c4_cross_pipeline_binding :
    (parseGraph hapfDoc4.data).edges =
      [⟨"e-input-a-mod-m", "input-a", "mod-m"⟩,
       ⟨"e-mod-m-mod-n", "mod-m", "mod-n"⟩] ∧
    (parseGraph hapfDoc4.data).variableMap = [("v", "mod-m")] := by decide

/-- C7 counterexample: on the text `&#123;"\\" &#125;` (escaped backslash
immediately before the closing quote) the implementation returns -1, while
the claim's escape-aware reading — under which that quote is still
effective — identifies the matching close brace at index 6. -/
theorem c7_counterexample :
    findBlockEnd hapfDoc7.data 0 = -1 ∧
    fbeCountSpec quoteTogglesEsc hapfDoc7.data 0 = 6 := by decide

/-- The inline toggle test of the loop equals `quoteToggles` at an index
holding a character. -/
theorem quoteToggles_of_get (text : List Char) (i : Nat) (c : Char)
    (hc : text.get? i = some c) :
    quoteToggles text i =
      (decide (c = '"') && decide ((if i = 0 then none else text.get? (i - 1)) ≠ some '\\')) := by
  unfold quoteToggles
  rw [hc]
  by_cases h0 : i = 0
  · subst h0
    simp
  · have h1 : 1 ≤ i := Nat.one_le_iff_ne_zero.mpr h0
    simp [h0, h1]

/-- Brace contribution of a character seen outside a string. -/
theorem braceDelta_of_get (tog : List Char → Nat → Bool) (text : List Char)
    (s i : Nat) (c : Char) (hc : text.get? i = some c)
    (hout : inStringBefore tog text s i = false) :
    braceDelta tog text s i =
      (if c = '\x7b' then 1 else if c = '\x7d' then -1 else 0) := by
  unfold braceDelta
  rw [hc, hout]
  simp

/-- Hit test at an index holding a character. -/
theorem fbeHit_of_get (tog : List Char → Nat → Bool) (text : List Char)
    (s i : Nat) (c : Char) (hc : text.get? i = some c) :
    fbeHit tog text s i =
      (decide (c = '\x7d') && !inStringBefore tog text s i &&
        decide (braceCount tog text s i = 0)) := by
  unfold fbeHit
  rw [hc]
  simp

/-- Parity recurrence for the string state. -/
theorem inStringBefore_succ (tog : List Char → Nat → Bool) (text : List Char)
    (s i : Nat) (h : s ≤ i) :
    inStringBefore tog text s (i + 1) = (tog text i != inStringBefore tog text s i) := by
  unfold inStringBefore
  rw [List.range_succ, List.filter_append]
  cases htog : tog text i with
  | false => simp [htog, h]
  | true =>
    simp only [htog, h, decide_True, Bool.and_true, List.filter_cons, List.filter_nil,
      if_true, List.length_append, List.length_cons, List.length_nil, Bool.true_bne]
    rcases Nat.mod_two_eq_zero_or_one
      ((List.range i).filter (fun j => decide (s ≤ j) && tog text j)).length with hn | hn
    · simp [Nat.add_mod, hn]
    · simp [Nat.add_mod, hn]

/-- Sum recurrence for the brace counter. -/
theorem braceAcc_succ (tog : List Char → Nat → Bool) (text : List Char)
    (s i : Nat) (h : s ≤ i) :
    braceAcc tog text s (i + 1) = braceAcc tog text s i + braceDelta tog text s i := by
  unfold braceAcc
  rw [List.range_succ, List.filter_append]
  simp [h]

/-- The scanner loop, from any position whose carried state agrees with the
parity and sum characterisations, computes the first hit at or after that
position. -/
theorem fbeAux_eq_spec (text : List Char) (s : Nat) :
    ∀ (fuel i : Nat) (ob : Int) (istr : Bool), s ≤ i →
      istr = inStringBefore quoteToggles text s i →
      ob = braceAcc quoteToggles text s i →
      fbeAux text fuel i ob istr =
        (match firstHitFrom quoteToggles text s fuel i with
         | some j => (j : Int)
         | none => -1) := by
  intro fuel
  induction fuel with
  | zero => intro i ob istr _ _ _; rfl
  | succ fuel ih =>
    intro i ob istr hsi histr hob
    cases hc : text.get? i with
    | none =>
      have hlen : ¬ i < text.length := by
        rw [List.get?_eq_none] at hc
        omega
      show fbeAux text (fuel + 1) i ob istr = _
      unfold fbeAux firstHitFrom
      rw [hc, if_neg hlen]
    | some c =>
      have hlen : i < text.length := by
        by_contra hx
        rw [List.get?_eq_none.mpr (by omega)] at hc
        cases hc
      have htog := quoteToggles_of_get text i c hc
      have hsucc := inStringBefore_succ quoteToggles text s i hsi
      have hacc := braceAcc_succ quoteToggles text s i hsi
      have hhit := fbeHit_of_get quoteToggles text s i c hc
      show fbeAux text (fuel + 1) i ob istr = _
      unfold fbeAux firstHitFrom
      rw [hc, if_pos hlen]
      dsimp only
      rw [← htog]
      have hXeq : (if quoteToggles text i = true then !istr else istr) =
          inStringBefore quoteToggles text s (i + 1) := by
        rw [hsucc, histr]
        cases quoteToggles text i <;> simp
      by_cases hq : c = '"'
      · subst hq
        have hdelta : braceDelta quoteToggles text s i = 0 := by
          unfold braceDelta
          rw [hc]
          split <;> simp
        have hhitf : fbeHit quoteToggles text s i = false := by
          rw [hhit]
          simp
        have hob' : ob = braceAcc quoteToggles text s (i + 1) := by
          rw [hacc, hdelta, hob]
          ring
        rw [hhitf]
        simp only [Bool.false_eq_true, if_false]
        rw [if_neg (show ¬('"' : Char) = '\x7d' by decide),
          if_neg (show ¬('"' : Char) = '\x7b' by decide)]
        rw [ite_self]
        exact ih (i + 1) ob _ (by omega) hXeq hob'
      · have htogf : quoteToggles text i = false := by
          rw [htog]
          simp [hq]
        rw [htogf] at hXeq ⊢
        simp only [Bool.false_eq_true, if_false] at hXeq ⊢
        cases hb : istr with
        | true =>
          have hsb : inStringBefore quoteToggles text s i = true := by rw [← histr, hb]
          have hdelta : braceDelta quoteToggles text s i = 0 := by
            unfold braceDelta
            rw [hsb]
            simp
          have hhitf : fbeHit quoteToggles text s i = false := by
            rw [hhit, hsb]
            simp
          have hob' : ob = braceAcc quoteToggles text s (i + 1) := by
            rw [hacc, hdelta, hob]
            ring
          rw [hhitf]
          simp only [Bool.false_eq_true, if_false, if_pos rfl]
          exact ih (i + 1) ob _ (by omega) (hb ▸ hXeq) hob'
        | false =>
          have hsb : inStringBefore quoteToggles text s i = false := by rw [← histr, hb]
          simp only [Bool.false_eq_true, if_false]
          by_cases hcb : c = '\x7d'
          · subst hcb
            have hdelta : braceDelta quoteToggles text s i = -1 := by
              rw [braceDelta_of_get quoteToggles text s i _ hc hsb]
              simp
            have hcount : braceCount quoteToggles text s i = ob - 1 := by
              unfold braceCount
              rw [hacc, hdelta, hob]
              ring
            rw [if_pos rfl, if_neg (show ¬('\x7d' : Char) = '\x7b' by decide)]
            by_cases hz : ob - 1 = 0
            · have hhitt : fbeHit quoteToggles text s i = true := by
                rw [hhit, hsb, hcount]
                simp [hz]
              rw [if_pos hz, hhitt]
              simp
            · have hhitf : fbeHit quoteToggles text s i = false := by
                rw [hhit, hsb, hcount]
                simp [hz]
              rw [if_neg hz, hhitf]
              simp only [Bool.false_eq_true, if_false]
              have hob' : ob - 1 = braceAcc quoteToggles text s (i + 1) := by
                rw [hacc, hdelta, hob]
                ring
              exact ih (i + 1) (ob - 1) _ (by omega) (hb ▸ hXeq) hob'
          · have hhitf : fbeHit quoteToggles text s i = false := by
              rw [hhit]
              simp [hcb]
            rw [if_neg hcb, hhitf]
            simp only [Bool.false_eq_true, if_false]
            by_cases hco : c = '\x7b'
            · subst hco
              have hdelta : braceDelta quoteToggles text s i = 1 := by
                rw [braceDelta_of_get quoteToggles text s i _ hc hsb]
                simp
              have hob' : ob + 1 = braceAcc quoteToggles text s (i + 1) := by
                rw [hacc, hdelta, hob]
              rw [if_pos rfl]
              exact ih (i + 1) (ob + 1) _ (by omega) (hb ▸ hXeq) hob'
            · have hdelta : braceDelta quoteToggles text s i = 0 := by
                rw [braceDelta_of_get quoteToggles text s i _ hc hsb]
                simp [hcb, hco]
              have hob' : ob = braceAcc quoteToggles text s (i + 1) := by
                rw [hacc, hdelta, hob]
                ring
              rw [if_neg hco]
              exact ih (i + 1) ob _ (by omega) (hb ▸ hXeq) hob'

/-- At the start index the string state is off. -/
theorem inStringBefore_start (tog : List Char → Nat → Bool) (text : List Char) (s : Nat) :
    inStringBefore tog text s s = false := by
  unfold inStringBefore
  have hnil : (List.range s).filter (fun j => decide (s ≤ j) && tog text j) = [] := by
    rw [List.filter_eq_nil_iff]
    intro j hj
    rw [List.mem_range] at hj
    simp [Nat.not_le.mpr hj]
  rw [hnil]
  rfl

/-- At the start index the brace counter is zero. -/
theorem braceAcc_start (tog : List Char → Nat → Bool) (text : List Char) (s : Nat) :
    braceAcc tog text s s = 0 := by
  unfold braceAcc
  have hnil : (List.range s).filter (fun j => decide (s ≤ j)) = [] := by
    rw [List.filter_eq_nil_iff]
    intro j hj
    rw [List.mem_range] at hj
    simp [Nat.not_le.mpr hj]
  rw [hnil]
  rfl

/-- C7 amended: the block scanner is exactly the counting characterisation
under the implemented toggle rule — `findBlockEnd` returns the least index
at which a close brace, seen outside a string (quote-toggle parity with the
prev-character-not-backslash rule), returns the running brace counter to
zero, and -1 when no such index exists; it never raises. -/
theorem c7_matches_counting_characterisation :
    ∀ (text : List Char) (startIndex : Int),
    findBlockEnd text startIndex = fbeCountSpec quoteToggles text startIndex := by
  intro text startIndex
  unfold findBlockEnd fbeCountSpec
  exact fbeAux_eq_spec text startIndex.toNat (text.length + 1) startIndex.toNat 0 false
    (le_refl _) (inStringBefore_start _ _ _).symm (braceAcc_start _ _ _).symm

/-- C8 counterexample: declaring `module "a"` twice appends two Module
nodes with the same id `mod-a` — Module-node creation is not idempotent,
refuting both the pairwise-distinct-ids and the one-node-per-name parts of
the claim. -/
theorem c8_counterexample :
    ((parseGraph hapfDoc8.data).nodes.filter
      (fun n => n.id == "mod-a")).length = 2 := by decide

/-- C8 amended: deduplication by id guards Input and Inferred node creation
and the functional/arrow edge pushes, but Module (and Runtime) nodes are
appended unconditionally, once per successful module-declaration parse: the
duplicate declaration yields exactly two `mod-a` nodes, while the repeated
`run m(input.x)` call yields a single `input-x` node and a single edge. -/
theorem c8_module_nodes_not_deduplicated :
    (parseGraph hapfDoc8.data).nodes =
      [⟨"mod-a", .module⟩, ⟨"mod-a", .module⟩] ∧
    (parseGraph hapfDoc8b.data).nodes =
      [⟨"mod-m", .module⟩, ⟨"input-x", .input⟩] ∧
    (parseGraph hapfDoc8b.data).edges =
      [⟨"e-input-x-mod-m", "input-x", "mod-m"⟩] := by decide

/-- The two diagnostic messages can never coincide: they differ at character
index 10 (`m` against `v`). -/
theorem msg_ne (n r : String) :
    undefinedModuleMessage n ≠ undefinedVariableMessage r := fun h =>
  (by decide : ('m' : Char) ≠ 'v')
    (Option.some.inj (congrArg (fun s => s.data.get? 10) h : some 'm' = some 'v'))

/-- An Undefined-Variable message determines the variable name. -/
theorem varMsg_inj (a b : String)
    (h : undefinedVariableMessage a = undefinedVariableMessage b) : a = b := by
  have hd := congrArg String.data h
  simp only [undefinedVariableMessage, String.data_append] at hd
  exact String.ext (List.append_cancel_left (List.append_cancel_right hd))

/-- On a non-skipped, non-exit line inside a pipeline, the diagnostics of
the line are exactly those of the `run` validation block, checked against
the line scope. -/
theorem analyzeLine_inPipeline_diags (table : List String) (st : AState)
    (ln : Nat) (line : List Char) (hskip : skipLine line = false)
    (hpipe : (pipeStart st line).inPipeline = true)
    (hexit : exitCond st line = false) :
    (analyzeLine table st ln line).2 =
      runCheckDiags table (lineScope st line) ln line := by
  unfold analyzeLine
  simp [hskip, hpipe, hexit]

/-- Shape of a produced token diagnostic: its message is the
Undefined-Variable message of the token's root, and that root was not in
scope. -/
theorem tokenDiag_some (line : List Char) (scope : List String)
    (ln op : Nat) (args : List Char) (wi : List Char × Nat)
    (d : HapfDiagnostic) (h : tokenDiag line scope ln op args wi = some d) :
    d.message = undefinedVariableMessage (String.mk (rootSegment wi.1)) ∧
      scope.contains (String.mk (rootSegment wi.1)) = false := by
  unfold tokenDiag at h
  dsimp only at h
  split at h
  · exact absurd h (by simp)
  · split at h
    · exact absurd h (by simp)
    · split at h
      · exact absurd h (by simp)
      · split at h
        · exact absurd h (by simp)
        · split at h
          · cases h
            exact ⟨rfl, by simp_all⟩
          · exact absurd h (by simp)

/-- No argument diagnostic carries an Undefined-Module message. -/
theorem argDiags_no_module_msg (line : List Char) (scope : List String)
    (ln op : Nat) (args : List Char) (name : String) (d : HapfDiagnostic)
    (hd : d ∈ argDiags line scope ln op args) :
    d.message ≠ undefinedModuleMessage name := by
  obtain ⟨wi, _, hsome⟩ := List.mem_filterMap.mp hd
  have hm := (tokenDiag_some line scope ln op args wi d hsome).1
  rw [hm]
  exact fun hh => msg_ne name _ hh.symm

/-- The `run` block emits an Undefined-Module diagnostic for the matched
name iff that name is missing from the table. -/
theorem runCheck_module_any (table scope : List String) (ln : Nat)
    (line : List Char) (name : String) (hrun : lineRunName line = some name) :
    ((runCheckDiags table scope ln line).any
        (fun d => d.message == undefinedModuleMessage name))
      = !(table.contains name) := by
  unfold runCheckDiags
  rw [hrun]
  dsimp only
  rw [List.any_append]
  have hvar :
      (if (decide (runOpenParen line name ≠ -1) &&
            decide (strLastIndexOf line ')' ≠ -1)) = true then
          argDiags line scope ln (runOpenParen line name).toNat
            (runArgsStr line name)
        else []).any (fun d => d.message == undefinedModuleMessage name)
        = false := by
    split
    · rw [List.any_eq_false]
      intro d hd hh
      exact argDiags_no_module_msg line scope ln _ _ name d hd (eq_of_beq hh)
    · rfl
  rw [hvar, Bool.or_false]
  cases hm : table.contains name with
  | true => simp [hm]
  | false => simp [hm]

/-- C5: on a non-skipped, non-exit line inside a pipeline body whose first
`\brun\s+name\s*(` match captures `name`, the checker emits an
Undefined-Module diagnostic for that call iff `name` is neither one of the
five built-in module names nor the quoted name of some `module "<name>"`
occurrence anywhere in the document — the Symbol Table is built from the
whole text in a prior pass, so a declaration after the call also
suppresses the diagnostic. -/
theorem c5_undefined_module_iff (code : List Char) (st : AState) (ln : Nat)
    (line : List Char) (name : String)
    (hskip : skipLine line = false)
    (hpipe : (pipeStart st line).inPipeline = true)
    (hexit : exitCond st line = false)
    (hrun : lineRunName line = some name) :
    ((analyzeLine (symbolTable code) st ln line).2.any
        (fun d => d.message == undefinedModuleMessage name))
      = !(builtinModules.contains name || (moduleDeclNames code).contains name) := by
  rw [analyzeLine_inPipeline_diags _ _ _ _ hskip hpipe hexit,
    runCheck_module_any _ _ _ _ _ hrun]
  congr 1
  simp [symbolTable, List.contains, List.elem_eq_mem, List.mem_append, Bool.decide_or]

/-- C5 witness: the call `run m()` inside a pipeline, with `module "m"`
declared only after it; the declared-anywhere side holds, so no diagnostic
is emitted. -/
theorem c5_witness :
    skipLine c5WitnessLine.data = false ∧
    (pipeStart midPipelineState c5WitnessLine.data).inPipeline = true ∧
    exitCond midPipelineState c5WitnessLine.data = false ∧
    lineRunName c5WitnessLine.data = some "m" ∧
    ((analyzeLine (symbolTable c5WitnessCode.data) midPipelineState 2
        c5WitnessLine.data).2.any
      (fun d => d.message == undefinedModuleMessage "m"))
    = !(builtinModules.contains "m" ||
        (moduleDeclNames c5WitnessCode.data).contains "m") :=
  ⟨by decide, by decide, by decide, by decide,
    c5_undefined_module_iff c5WitnessCode.data midPipelineState 2
      c5WitnessLine.data "m" (by decide) (by decide) (by decide) (by decide)⟩

/-- The argument check produces an Undefined-Variable diagnostic for a
token satisfying all exclusion tests iff the token's root is not in
scope. -/
theorem argDiags_var_any (line : List Char) (scope : List String)
    (ln op : Nat) (args : List Char) (word : List Char) (idx : Nat)
    (htok : (word, idx) ∈ argTokens args)
    (hkey : args.get? (idx + word.length) ≠ some ':')
    (hlit : (["true", "false", "null", "input"]).contains
      (String.mk (rootSegment word)) = false)
    (hnum : jsParseFloatNum (rootSegment word) = false)
    (hq : countChar (line.take (op + 1 + idx)) '"' % 2 = 0) :
    (argDiags line scope ln op args).any
        (fun d => d.message == undefinedVariableMessage (String.mk (rootSegment word)))
      = !(scope.contains (String.mk (rootSegment word))) := by
  cases hc : scope.contains (String.mk (rootSegment word)) with
  | true =>
    rw [Bool.not_true, List.any_eq_false]
    intro d hd hh
    obtain ⟨wi, _, hsome⟩ := List.mem_filterMap.mp hd
    obtain ⟨hmsg, hnc⟩ := tokenDiag_some line scope ln op args wi d hsome
    rw [hmsg] at hh
    rw [varMsg_inj _ _ (eq_of_beq hh)] at hnc
    simp_all
  | false =>
    rw [Bool.not_false, List.any_eq_true]
    refine ⟨⟨ln, op + 1 + idx + 1, ln, op + 1 + idx + 1 + word.length,
      undefinedVariableMessage (String.mk (rootSegment word)), 8⟩, ?_, beq_self_eq_true _⟩
    apply List.mem_filterMap.mpr
    refine ⟨(word, idx), htok, ?_⟩
    unfold tokenDiag
    dsimp only
    rw [if_neg hkey]
    rw [hlit]
    rw [if_neg (by simp)]
    rw [hnum]
    rw [if_neg (by simp)]
    rw [hc]
    rw [if_neg (by simp)]
    rw [if_pos hq]

/-- C6: on a non-skipped, non-exit line inside a pipeline with a `run`
match and both parentheses found, a token of the argument text that is not
an object key (followed by `:`), not one of the literals
`true`/`false`/`null`/`input`, not numeric, and positioned outside a
string (even count of quotes before it on the line) gets an
Undefined-Variable diagnostic iff its root segment is not in the line's
scope (the state scope plus the line's own `let` binding); binding the
name via `let` on an earlier line puts it in the state scope and so
eliminates the diagnostic. -/
theorem c6_undefined_variable_iff (code : List Char) (st : AState) (ln : Nat)
    (line : List Char) (name : String) (word : List Char) (idx : Nat)
    (hskip : skipLine line = false)
    (hpipe : (pipeStart st line).inPipeline = true)
    (hexit : exitCond st line = false)
    (hrun : lineRunName line = some name)
    (hparen : (decide (runOpenParen line name ≠ -1) &&
      decide (strLastIndexOf line ')' ≠ -1)) = true)
    (htok : (word, idx) ∈ argTokens (runArgsStr line name))
    (hkey : (runArgsStr line name).get? (idx + word.length) ≠ some ':')
    (hlit : (["true", "false", "null", "input"]).contains
      (String.mk (rootSegment word)) = false)
    (hnum : jsParseFloatNum (rootSegment word) = false)
    (hq : countChar (line.take ((runOpenParen line name).toNat + 1 + idx)) '"' % 2 = 0) :
    ((analyzeLine (symbolTable code) st ln line).2.any
        (fun d => d.message == undefinedVariableMessage (String.mk (rootSegment word))))
      = !((lineScope st line).contains (String.mk (rootSegment word))) := by
  rw [analyzeLine_inPipeline_diags _ _ _ _ hskip hpipe hexit]
  unfold runCheckDiags
  rw [hrun]
  dsimp only
  rw [List.any_append, if_pos hparen]
  have hmod :
      (if (symbolTable code).contains name = true then ([] : List HapfDiagnostic)
        else [⟨ln, runNameCol line name, ln, runNameCol line name + name.length,
          undefinedModuleMessage name, 8⟩]).any
        (fun d => d.message == undefinedVariableMessage (String.mk (rootSegment word)))
        = false := by
    split
    · rfl
    · simp only [List.any_cons, List.any_nil, Bool.or_false]
      exact beq_eq_false_iff_ne.mpr (msg_ne name _)
  rw [hmod, Bool.false_or]
  exact argDiags_var_any line _ ln _ _ word idx htok hkey hlit hnum hq

/-- C6 witness: `run m(bogus)` inside a pipeline whose scope holds only
`input`: the token `bogus` passes every exclusion test, is unbound, and the
diagnostic is emitted. -/
theorem c6_witness :
    skipLine c6WitnessLine.data = false ∧
    (pipeStart midPipelineState c6WitnessLine.data).inPipeline = true ∧
    exitCond midPipelineState c6WitnessLine.data = false ∧
    lineRunName c6WitnessLine.data = some "m" ∧
    ("bogus".data, 0) ∈ argTokens (runArgsStr c6WitnessLine.data "m") ∧
    ((analyzeLine (symbolTable c6WitnessCode.data) midPipelineState 3
        c6WitnessLine.data).2.any
      (fun d => d.message ==
        undefinedVariableMessage (String.mk (rootSegment "bogus".data))))
    = !((lineScope midPipelineState c6WitnessLine.data).contains
        (String.mk (rootSegment "bogus".data))) :=
  ⟨by decide, by decide, by decide, by decide, by decide,
    c6_undefined_variable_iff c6WitnessCode.data midPipelineState 3
      c6WitnessLine.data "m" "bogus".data 0 (by decide) (by decide) (by decide)
      (by decide) (by decide) (by decide) (by decide) (by decide) (by decide)
      (by decide)⟩

/-- A single edge relaxation never lowers any rank. -/
theorem relaxEdge_le (r : String → Nat) (e : String × String) (v : String) :
    r v ≤ relaxEdge r e v := by
  unfold relaxEdge
  split
  · unfold updateRank
    split
    · rename_i hgt hv
      subst hv
      omega
    · exact le_refl _
  · exact le_refl _

/-- A fold of edge relaxations never lowers any rank. -/
theorem foldl_relaxEdge_le (l : List (String × String)) (r : String → Nat)
    (v : String) : r v ≤ (l.foldl relaxEdge r) v := by
  induction l generalizing r with
  | nil => exact le_refl _
  | cons e t ih => exact le_trans (relaxEdge_le r e v) (ih (relaxEdge r e))

/-- After a pass containing edge `e`, the target rank exceeds the source's
rank at the start of the pass. -/
theorem foldl_relaxEdge_edge (l : List (String × String)) (r : String → Nat)
    (e : String × String) (he : e ∈ l) :
    r e.1 + 1 ≤ (l.foldl relaxEdge r) e.2 := by
  induction l generalizing r with
  | nil => cases he
  | cons a t ih =>
    cases he with
    | head =>
      have h1 : r e.1 + 1 ≤ relaxEdge r e e.2 := by
        unfold relaxEdge
        split
        · unfold updateRank
          simp
        · rename_i h
          omega
      exact le_trans h1 (foldl_relaxEdge_le t _ e.2)
    | tail _ ht =>
      exact le_trans (Nat.add_le_add_right (relaxEdge_le r a e.1) 1)
        (ih (relaxEdge r a) ht)

theorem relaxEdge_witnessed (edges : List (String × String)) (r : String → Nat)
    (e : String × String) (he : e ∈ edges) (hr : RankWitnessed edges r) :
    RankWitnessed edges (relaxEdge r e) := by
  intro v
  unfold relaxEdge
  split
  · unfold updateRank
    split
    · rename_i hgt hv
      subst hv
      right
      have hpair : (e.1, e.2) ∈ edges := by rwa [Prod.mk.eta]
      cases hr e.1 with
      | inl h0 => exact ⟨e.1, by rw [h0]; exact Chain.single hpair⟩
      | inr hex =>
        obtain ⟨a, hch⟩ := hex
        exact ⟨a, Chain.cons hch hpair⟩
    · exact hr v
  · exact hr v

theorem foldl_witnessed (edges l : List (String × String))
    (hl : ∀ e ∈ l, e ∈ edges) (r : String → Nat) (hr : RankWitnessed edges r) :
    RankWitnessed edges (l.foldl relaxEdge r) := by
  induction l generalizing r with
  | nil => exact hr
  | cons a t ih =>
    exact ih (fun e h => hl e (List.mem_cons_of_mem a h))
      (relaxEdge r a)
      (relaxEdge_witnessed edges r a (hl a (List.mem_cons_self a t)) hr)

theorem relaxPass_witnessed (edges : List (String × String)) (r : String → Nat)
    (hr : RankWitnessed edges r) : RankWitnessed edges (relaxPass edges r) :=
  foldl_witnessed edges edges (fun _ h => h) r hr

theorem chain_pos {edges : List (String × String)} {n : Nat} {a v : String}
    (h : Chain edges n a v) : 1 ≤ n := by
  cases h <;> omega

theorem chainLB_zero (edges : List (String × String)) (r : String → Nat) :
    ChainLB edges 0 r := by
  intro n a v hch hn
  have := chain_pos hch
  omega

theorem relaxPass_chainLB (edges : List (String × String)) (k : Nat)
    (r : String → Nat) (h : ChainLB edges k r) :
    ChainLB edges (k + 1) (relaxPass edges r) := by
  unfold relaxPass
  intro n a v hch hn
  cases hch with
  | single he =>
    have := foldl_relaxEdge_edge edges r (a, v) he
    simp only at this
    omega
  | cons hpre he =>
    rename_i m b
    have hm : m ≤ r b := h m a b hpre (by omega)
    have := foldl_relaxEdge_edge edges r (b, v) he
    simp only at this
    omega

/-- C9: after initializing every rank to 0 and running exactly five
relaxation passes over the edge list, every edge satisfies
`rank(target) ≥ rank(source) + 1`, provided no directed dependency chain in
the graph is longer than the five-pass bound. -/
theorem c9_rank_monotone (edges : List (String × String))
    (hbound : ∀ n a b, Chain edges n a b → n ≤ 5) :
    ∀ e ∈ edges, relaxRanks edges e.1 + 1 ≤ relaxRanks edges e.2 := by
  have hW : RankWitnessed edges (relaxRanks edges) := by
    unfold relaxRanks
    exact relaxPass_witnessed _ _ (relaxPass_witnessed _ _ (relaxPass_witnessed _ _
      (relaxPass_witnessed _ _ (relaxPass_witnessed _ _ (fun _ => Or.inl rfl)))))
  have hLB : ChainLB edges 5 (relaxRanks edges) := by
    unfold relaxRanks
    exact relaxPass_chainLB _ 4 _ (relaxPass_chainLB _ 3 _ (relaxPass_chainLB _ 2 _
      (relaxPass_chainLB _ 1 _ (relaxPass_chainLB _ 0 _ (chainLB_zero _ _)))))
  intro e he
  have hpair : (e.1, e.2) ∈ edges := by rwa [Prod.mk.eta]
  cases hW e.1 with
  | inl h0 =>
    have hch : Chain edges 1 e.1 e.2 := Chain.single hpair
    have := hLB 1 e.1 e.2 hch (by omega)
    omega
  | inr hex =>
    obtain ⟨a, hch⟩ := hex
    have hch2 : Chain edges (relaxRanks edges e.1 + 1) a e.2 :=
      Chain.cons hch hpair
    exact hLB _ a e.2 hch2 (hbound _ _ _ hch2)

/-- Every chain of the single-edge graph ends at `b`. -/
theorem c9_chain_end {n : Nat} {x y : String} (h : Chain c9Edges n x y) :
    y = "b" := by
  cases h with
  | single he =>
    simp only [c9Edges, List.mem_singleton, Prod.mk.injEq] at he
    exact he.2
  | cons _ he =>
    simp only [c9Edges, List.mem_singleton, Prod.mk.injEq] at he
    exact he.2

/-- The single-edge graph has no chain longer than one edge. -/
theorem c9_chain_bound : ∀ (n : Nat) (a b : String),
    Chain c9Edges n a b → n ≤ 5 := by
  intro n a b h
  induction h with
  | single _ => omega
  | cons hpre he _ =>
    exfalso
    have h1 := c9_chain_end hpre
    simp only [c9Edges, List.mem_singleton, Prod.mk.injEq] at he
    exact (by decide : ("b" : String) ≠ "a") (h1 ▸ he.1)

/-- C9 witness: the one-edge graph `a → b` satisfies the chain bound, and
the relaxed ranks satisfy the monotonicity conclusion on its edge. -/
theorem c9_witness :
    (∀ (n : Nat) (a b : String), Chain c9Edges n a b → n ≤ 5) ∧
    (∀ e ∈ c9Edges, relaxRanks c9Edges e.1 + 1 ≤ relaxRanks c9Edges e.2) :=
  ⟨c9_chain_bound, c9_rank_monotone c9Edges c9_chain_bound⟩

/-- C10: a line whose trimmed content is empty or starts with `#` is
dismissed before any tracking: the checker state — pipeline flag, scope,
brace depth, pipeline start depth — is returned unchanged and no diagnostic
is produced, so braces inside comments never close a pipeline body. -/
theorem c10_skip_line_frame (table : List String) (st : AState) (ln : Nat)
    (line : List Char) (h : skipLine line = true) :
    analyzeLine table st ln line = (st, []) := by
  unfold analyzeLine
  simp [h]

/-- C10 witness: a comment line full of close braces, processed mid-pipeline
at depth 1, leaves the state untouched and yields no diagnostics. -/
theorem c10_witness :
    skipLine c10Line.data = true ∧
    analyzeLine ["m"] midPipelineState 7 c10Line.data =
      (midPipelineState, []) :=
  ⟨by decide, c10_skip_line_frame ["m"] midPipelineState 7 c10Line.data (by decide)⟩

end Hapf
